import Mathlib

/-!
Verification of llm-foundry's text-to-MDS data-prep pipeline
(`llmfoundry/command_utils/data_prep/convert_text_to_mds.py`) and of the MPT
model's block-override topology, sequence-id masking and loss computation
(`llmfoundry/models/mpt/modeling_mpt.py`), as shallow embeddings in Lean.

Token ids are modelled as `Int` (Python ints), tensors of ids as lists of
rows, and fallible Python code (raised exceptions) as `Except String`.
-/

namespace LLMFoundry

/-! ## Part 1: `ConcatTokensFromFilesDataset.__iter__`

A file is modelled as the list of per-chunk token lists produced by the
tokenizer on its 1MB text chunks (the tokenizer itself is an external
collaborator).  `bos_tokens` / `eos_tokens` / `should_wrap` come from the
parent class `AbstractConcatTokensDataset` and are passed as parameters. -/

/-- The inner `while len(buffer) >= self.max_length` loop: repeatedly yield
`buffer[:max_length]` and keep `buffer[max_length:]` when wrapping (else `[]`).
Returns the yielded windows and the remaining buffer.  For `maxLen = 0` the
source loop would not terminate; the guard `0 < maxLen` renders the
embedding total (no claim involves `maxLen = 0`). -/
def emitWindows (maxLen : Nat) (wrap : Bool) (buffer : List Int) :
    List (List Int) × List Int :=
  if h : 0 < maxLen ∧ maxLen ≤ buffer.length then
    let w := buffer.take maxLen
    let rest := if wrap then buffer.drop maxLen else []
    let r := emitWindows maxLen wrap rest
    (w :: r.1, r.2)
  else
    ([], buffer)
termination_by buffer.length
decreasing_by
  have h1 : 0 < maxLen := h.1
  have h2 : maxLen ≤ buffer.length := h.2
  cases wrap <;> simp [rest] <;> omega

/-- `if iids[0] == self.tokenizer.bos_token_id: iids = iids[1:]` — the
duplicate-BOS strip applied to every chunk after the first.  On an empty
token list the source would raise `IndexError` at `iids[0]`; chunks read
from a file are non-empty strings, and every theorem below uses non-empty
tokenizations. -/
def stripDupBos (bosTokenId : Option Int) (iids : List Int) : List Int :=
  match iids with
  | i :: rest => if some i = bosTokenId then rest else iids
  | [] => []

/-- The per-file chunk loop: tokenized chunks are appended to the buffer
(with duplicate-BOS stripping on non-first chunks) and full windows are
emitted as soon as the buffer reaches `max_length`. -/
def processChunks (bosTokenId : Option Int) (maxLen : Nat) (wrap : Bool) :
    List (List Int) → Bool → List Int → List (List Int) × List Int
  | [], _, buffer => ([], buffer)
  | c :: cs, firstChunk, buffer =>
    let iids := if firstChunk then c else stripDupBos bosTokenId c
    let r := emitWindows maxLen wrap (buffer ++ iids)
    let r' := processChunks bosTokenId maxLen wrap cs false r.2
    (r.1 ++ r'.1, r'.2)

/-- One iteration of the `for file in self.files` loop: prepend `bos_tokens`,
process the file's chunks, then append `eos_tokens` to separate files. -/
def processFile (bos eos : List Int) (bosTokenId : Option Int) (maxLen : Nat)
    (wrap : Bool) (chunks : List (List Int)) (buffer : List Int) :
    List (List Int) × List Int :=
  let buf := buffer ++ bos
  let r := processChunks bosTokenId maxLen wrap chunks true buf
  (r.1, r.2 ++ eos)

def processFiles (bos eos : List Int) (bosTokenId : Option Int) (maxLen : Nat)
    (wrap : Bool) : List (List (List Int)) → List Int →
    List (List Int) × List Int
  | [], buffer => ([], buffer)
  | f :: fs, buffer =>
    let r := processFile bos eos bosTokenId maxLen wrap f buffer
    let r' := processFiles bos eos bosTokenId maxLen wrap fs r.2
    (r.1 ++ r'.1, r'.2)

/-- `ConcatTokensFromFilesDataset.__iter__`: iterate over all files, then
yield any remaining full windows; a final buffer shorter than `max_length`
is dropped. -/
def concatTokensFromFilesIter (bos eos : List Int) (bosTokenId : Option Int)
    (maxLen : Nat) (wrap : Bool) (files : List (List (List Int))) :
    List (List Int) :=
  let r := processFiles bos eos bosTokenId maxLen wrap files []
  let r' := emitWindows maxLen wrap r.2
  r.1 ++ r'.1

/-- The tokens a list of chunks contributes to the stream, before windowing:
the first chunk unchanged (when `first`), later chunks with duplicate BOS
stripped. -/
def chunksTokensAux (bosTokenId : Option Int) : Bool → List (List Int) → List Int
  | _, [] => []
  | first, c :: cs =>
    (if first then c else stripDupBos bosTokenId c) ++
      chunksTokensAux bosTokenId false cs

/-- The tokens a single file contributes to the stream, before windowing. -/
def chunksTokens (bosTokenId : Option Int) (chunks : List (List Int)) :
    List Int :=
  chunksTokensAux bosTokenId true chunks

/-- Full concatenated token stream before windowing:
`bos ++ file tokens ++ eos` for each file in order. -/
def allTokens (bos eos : List Int) (bosTokenId : Option Int)
    (files : List (List (List Int))) : List Int :=
  (files.map (fun f => bos ++ chunksTokens bosTokenId f ++ eos)).flatten

/-! ## Part 2: done-file bookkeeping

File contents are modelled as `List Char`.  `pySplitlines` models Python's
`str.splitlines` restricted to `'\n'` line boundaries (the done files at
issue contain no `'\r'` or other Unicode line boundaries, and the theorems
hypothesise newline-free fields). -/

/-- Accumulating worker for `pySplitlines`: `acc` holds the reversed
current line.  A final `'\n'` closes the last line without opening an empty
one, as in Python. -/
def splitlinesAux (acc : List Char) : List Char → List (List Char)
  | [] => [acc.reverse]
  | c :: rest =>
    if c = '\n' then
      match rest with
      | [] => [acc.reverse]
      | _ :: _ => acc.reverse :: splitlinesAux [] rest
    else splitlinesAux (c :: acc) rest

/-- Python `str.splitlines` over `'\n'` boundaries: `''` gives `[]`, a
trailing `'\n'` does not produce a trailing empty line. -/
def pySplitlines (s : List Char) : List (List Char) :=
  if s = [] then [] else splitlinesAux [] s

/-- Python `'\n'.join`. -/
def joinLines : List (List Char) → List Char
  | [] => []
  | [l] => l
  | l :: ls => l ++ '\n' :: joinLines ls

/-- `write_done_file`: the file contents are
`'\n'.join([args_str] + object_names) + '\n'`. -/
def writeDoneFileContents (argsStr : List Char)
    (objectNames : List (List Char)) : List Char :=
  joinLines (argsStr :: objectNames) ++ ['\n']

/-- `is_already_processed`, given the retrieved done-file contents (`none`
when the done file is missing, locally or remotely): compare the stored
argument string, then the stored name list in count and exact order.  An
empty done file would make the source raise `IndexError` at
`done_file_contents[0]`; `write_done_file` never produces one. -/
def isAlreadyProcessed (doneFileContents : Option (List Char))
    (argsStr : List Char) (objectNames : List (List Char)) : Bool :=
  match doneFileContents with
  | none => false
  | some contents =>
    match pySplitlines contents with
    | [] => false
    | prevArgs :: prevNames =>
      if prevArgs ≠ argsStr then false
      else if prevNames.length ≠ objectNames.length then false
      else (prevNames.zip objectNames).all fun p => p.2 = p.1

/-! ## Part 3: `convert_text_to_mds` control flow

The filesystem, object store and worker pool are external; an environment
records the observations the function makes of them. -/

inductive ConvertError where
  | inputFolderMissingData
  | outputFolderNotEmpty
  | datasetTooSmall
  deriving DecidableEq, Repr

/-- The environment a `convert_text_to_mds` invocation observes. -/
structure ConvertEnv where
  /-- `get_object_names(input_folder)` -/
  objectNames : List (List Char)
  /-- retrieved done-file contents under `output_folder`, if any -/
  doneFileContents : Option (List Char)
  /-- `os.path.isdir(output_folder) and len(os.listdir(output_folder)) > 0` -/
  outputFolderNonEmpty : Bool
  /-- whether `index.json` lists a non-empty `shards` array after conversion -/
  shardsNonEmpty : Bool

/-- The error/skip control flow of `convert_text_to_mds`: empty input raises;
`not reprocess and is_already_processed(...)` returns early without
processing; a non-empty pre-existing output folder raises (this check is
reached whenever the early return did not fire, including `reprocess=True`);
an empty shard list after conversion raises.  `true` in the result means the
conversion ran. -/
def convertTextToMds (env : ConvertEnv) (argsStr : List Char)
    (reprocess : Bool) : Except ConvertError Bool :=
  if env.objectNames.length = 0 then
    .error .inputFolderMissingData
  else if !reprocess &&
      isAlreadyProcessed env.doneFileContents argsStr env.objectNames then
    .ok false
  else if env.outputFolderNonEmpty then
    .error .outputFolderNotEmpty
  else if !env.shardsNonEmpty then
    .error .datasetTooSmall
  else
    .ok true

/-! ## Part 4: `convert_text_to_mds_from_args` EOS handling

In the source, when `use_tokenizer_eos` is set and `eos_text` is not `None`,
`ValueError(...)` is *constructed but not raised* (the `raise` keyword is
missing), so execution continues and `eos_text` is overwritten with the
tokenizer's EOS token.  The embedding returns the `(bos_text, eos_text)`
pair that is passed on to `convert_text_to_mds`; no error path exists. -/
def convertTextToMdsFromArgsEos (useTokenizerEos : Bool)
    (bosText eosText : Option (List Char)) (tokenizerEosToken : List Char) :
    Except (List Char) (List Char × List Char) :=
  let eosText := if useTokenizerEos then some tokenizerEosToken else eosText
  .ok (bosText.getD [], eosText.getD [])

/-! ## Part 5: MPT block-override topology
(`MPTModel._get_override_block_args_list` and helpers)

Python dict values appearing in block-args / override configs are modelled
by `JVal`; dicts are association lists with unique keys, updated in place
like Python dicts. -/

inductive JVal where
  | int (n : Int)
  | bool (b : Bool)
  | str (s : String)
  | dict (entries : List (String × JVal))

abbrev JDict := List (String × JVal)

/-- Python `type(v)`: the constructor tag, used for the override type check. -/
def jTag : JVal → Nat
  | .int _ => 0
  | .bool _ => 1
  | .str _ => 2
  | .dict _ => 3

def pyGet (d : JDict) (k : String) : Option JVal :=
  (d.find? (fun p => p.1 == k)).map (·.2)

def pyHasKey (d : JDict) (k : String) : Bool :=
  (pyGet d k).isSome

/-- `d[k] = v`: replace in place if present, else append. -/
def pySet (d : JDict) (k : String) (v : JVal) : JDict :=
  if pyHasKey d k then d.map (fun p => if p.1 = k then (k, v) else p)
  else d ++ [(k, v)]

/-- Python `a | b` on dicts: start from `a`, update with `b`'s entries. -/
def pyUnion (a b : JDict) : JDict :=
  b.foldl (fun acc p => pySet acc p.1 p.2) a

mutual

/-- `MPTModel._override_block_args(block_args, override_config,
allowed_block_overrides)`: keys of the override absent from the allow-list
are rejected; `new = override_config | block_args`; for each key present in
both, types must match, nested dicts merge recursively and scalars are
overwritten with the override's value. -/
def overrideBlockArgs (blockArgs overrideConfig allowed : JDict) :
    Except String JDict :=
  let unpermitted := (overrideConfig.map Prod.fst).filter
      (fun k => !((allowed.map Prod.fst).contains k))
  if unpermitted ≠ [] then .error "Overriding is not supported"
  else mergeCommon blockArgs allowed overrideConfig
      (pyUnion overrideConfig blockArgs)

/-- The `for k in common_keys` loop of `_override_block_args`, walking the
override dict's entries (each common key is processed independently, so the
source's set-iteration order is immaterial). -/
def mergeCommon (blockArgs allowed : JDict) :
    JDict → JDict → Except String JDict
  | [], acc => .ok acc
  | (k, ov) :: rest, acc =>
    match pyGet blockArgs k with
    | none => mergeCommon blockArgs allowed rest acc
    | some bv =>
      if jTag ov ≠ jTag bv then
        .error "Override config should have same value types as the original config"
      else
        match ov, pyGet allowed k with
        | .dict od, some (.dict ad) =>
          match bv with
          | .dict bd => do
            let merged ← overrideBlockArgs bd od ad
            mergeCommon blockArgs allowed rest (pySet acc k (.dict merged))
          | _ => .error "unreachable: type check ensures both are dicts"
        | .dict _, _ =>
          -- the recursive source call would fail on a missing or non-dict
          -- `allowed_block_overrides[k]`
          .error "allowed_block_overrides[k] is not a dict"
        | _, _ => mergeCommon blockArgs allowed rest (pySet acc k ov)

end

/-- One item of a `block_overrides['order']` list: a dict that may carry
`name`, `order` and `repeat` keys. -/
inductive OrderItem where
  | mk (name? : Option String) (order? : Option (List OrderItem))
      (rep? : Option Int)

/-- `MPTModel._get_modules_order_expanded`: depth-first expansion of the
order tree.  Each item must carry exactly one of `name` / `order`; its
expansion is repeated `repeat` times (default 1; Python list repetition
yields `[]` for non-positive counts). -/
def getModulesOrderExpanded : List OrderItem → Except String (List String)
  | [] => .ok []
  | .mk name? order? rep? :: rest => do
    let rep := (rep?.getD 1).toNat
    if name?.isSome = order?.isSome then
      .error "Exactly one of order or name must be specified for each block override"
    else
      let headPart ← match name?, order? with
        | some n, _ => .ok (List.replicate rep n)
        | none, some sub => do
          let e ← getModulesOrderExpanded sub
          .ok (List.replicate rep e).flatten
        | none, none => .error "unreachable"
      let tailPart ← getModulesOrderExpanded rest
      .ok (headPart ++ tailPart)

abbrev IntDict := List (Int × Int)

def idGet (d : IntDict) (k : Int) : Option Int :=
  (d.find? (fun p => p.1 == k)).map (·.2)

def idSet (d : IntDict) (k v : Int) : IntDict :=
  if (idGet d k).isSome then d.map (fun p => if p.1 = k then (k, v) else p)
  else d ++ [(k, v)]

/-- Invariant of a `reuse_state_layer_idx_dict`: every stored resolved index
is non-negative and strictly smaller than the referencing layer's index. -/
def reuseDictInv (d : IntDict) : Prop :=
  ∀ p ∈ d, 0 ≤ p.2 ∧ p.2 < p.1

/-- `MPTModel._resolve_reuse_state_layer_idx`: the relative offset must be
negative and the absolute index `b_idx + offset` non-negative; chains are
flattened through `reuse_state_layer_idx_dict`, and `dict[b_idx]` is set to
the resolved index.  Returns the resolved index and the updated dict.  The
`parent_config` manipulation at the end of the source mutates a deep copy
that is immediately discarded; only the raises it can produce (missing
override key, non-dict values) are observable and are modelled as errors. -/
def resolveReuseStateLayerIdx (overridesDefinition : JDict)
    (modelModulesOrderExpanded : List String) (bIdx : Nat)
    (overrideConfig : JDict) (reuseStateLayerIdxDict : IntDict)
    (reuseType : String) : Except String (Int × IntDict) := do
  let attnCfg ← match pyGet overrideConfig "attn_config" with
    | some (.dict a) => Except.ok a
    | _ => Except.error "KeyError: attn_config"
  let offset ← match pyGet attnCfg reuseType with
    | some (.int v) => Except.ok v
    | _ => Except.error "KeyError: reuse offset"
  if offset ≥ 0 then
    .error "The relative index of kv layer to reuse should be negative"
  else
    let idx0 : Int := (bIdx : Int) + offset
    if idx0 < 0 then
      .error "The absolute index of kv layer to reuse should be non-negative"
    else
      let idx := match idGet reuseStateLayerIdxDict idx0 with
        | some j => j
        | none => idx0
      let dict' := idSet reuseStateLayerIdxDict (bIdx : Int) idx
      let parentLayerName ← match modelModulesOrderExpanded.get? idx.toNat with
        | some n => Except.ok n
        | none => Except.error "IndexError: model_modules_order_expanded"
      let parentCfg ← if parentLayerName = "default" then Except.ok ([] : JDict)
        else match pyGet overridesDefinition parentLayerName with
          | some (.dict p) => Except.ok p
          | some _ => Except.error "TypeError: parent override"
          | none => Except.error "KeyError: parent override"
      match pyGet parentCfg "attn_config" with
      | some (.dict _) => .ok (idx, dict')
      | none => .ok (idx, dict')
      | some _ => .error "TypeError: parent attn_config"

/-- `self.state_cache_layers` and the two `reuse_state_layer_idx_dicts`
threaded through the per-layer loop of `_get_override_block_args_list`. -/
structure OverrideLoopState where
  reuseKvDict : IntDict
  reuseKvXDict : IntDict
  stateCacheKv : List Int
  stateCacheKvX : List Int

def OverrideLoopState.initial : OverrideLoopState := ⟨[], [], [], []⟩

def addToSet (s : List Int) (x : Int) : List Int :=
  if x ∈ s then s else s ++ [x]

/-- The body of `for b_idx in range(config.n_layers)` in
`_get_override_block_args_list`: fetch the layer's module name, apply its
override (resolving a key/value-reuse reference first, and rejecting an
override that sets both reuse kinds), and deep-merge onto the base block
args. -/
def layerStep (overridesDefinition : JDict) (expanded : List String)
    (blockArgs allowed : JDict) (st : OverrideLoopState) (bIdx : Nat) :
    Except String (JDict × OverrideLoopState) := do
  let moduleName := expanded.getD bIdx "default"
  if moduleName = "default" then
    let args ← overrideBlockArgs blockArgs [] allowed
    .ok (args, st)
  else
    let ovd ← match pyGet overridesDefinition moduleName with
      | some (.dict d) => Except.ok d
      | some _ => Except.error "TypeError: override"
      | none => Except.error "KeyError: override"
    let attnCfg ← match pyGet ovd "attn_config" with
      | some (.dict a) => Except.ok a
      | none => Except.ok ([] : JDict)
      | some _ => Except.error "TypeError: attn_config"
    if pyHasKey attnCfg "reuse_kv_layer_idx" &&
        pyHasKey attnCfg "reuse_kv_x_layer_idx" then
      .error "Only one of reuse_kv_layer_idx and reuse_kv_x_layer_idx can be specified"
    else
      let reuseType? : Option String :=
        if pyHasKey attnCfg "reuse_kv_layer_idx" then some "reuse_kv_layer_idx"
        else if pyHasKey attnCfg "reuse_kv_x_layer_idx" then
          some "reuse_kv_x_layer_idx"
        else none
      match reuseType? with
      | none => do
        let args ← overrideBlockArgs blockArgs ovd allowed
        .ok (args, st)
      | some rt => do
        let d := if rt = "reuse_kv_layer_idx" then st.reuseKvDict
          else st.reuseKvXDict
        let r ← resolveReuseStateLayerIdx overridesDefinition expanded bIdx
          ovd d rt
        let ovd' := pySet ovd "attn_config"
          (.dict (pySet attnCfg rt (.int r.1)))
        let st' : OverrideLoopState :=
          if rt = "reuse_kv_layer_idx" then
            { st with
              reuseKvDict := r.2
              stateCacheKv := addToSet st.stateCacheKv r.1 }
          else
            { st with
              reuseKvXDict := r.2
              stateCacheKvX := addToSet st.stateCacheKvX r.1 }
        let args ← overrideBlockArgs blockArgs ovd' allowed
        .ok (args, st')

def overrideLayersLoop (overridesDefinition : JDict) (expanded : List String)
    (blockArgs allowed : JDict) :
    List Nat → OverrideLoopState →
    Except String (List JDict × OverrideLoopState)
  | [], st => .ok ([], st)
  | b :: bs, st => do
    let r ← layerStep overridesDefinition expanded blockArgs allowed st b
    let r' ← overrideLayersLoop overridesDefinition expanded blockArgs allowed
      bs r.2
    .ok (r.1 :: r'.1, r'.2)

/-- `config.block_overrides`: requires `order` and `overrides`; `repeat` is
optional with default 1. -/
structure BlockOverrides where
  order : List OrderItem
  overrides : JDict
  rep? : Option Int

/-- `MPTModel._get_override_block_args_list`: expand the order tree, multiply
by the top-level repeat, fail unless the expansion length equals `n_layers`,
then build the per-layer argument list. -/
def getOverrideBlockArgsList (blockOverrides : Option BlockOverrides)
    (nLayers : Nat) (blockArgs allowed : JDict) :
    Except String (List JDict × OverrideLoopState) := do
  let bo ← match blockOverrides with
    | some b => Except.ok b
    | none => Except.error "config.block_overrides should not be None"
  let expanded0 ← getModulesOrderExpanded bo.order
  let expanded := (List.replicate (bo.rep?.getD 1).toNat expanded0).flatten
  if expanded.length ≠ nLayers then
    .error "The specified block overrides do not match the number of layers"
  else
    overrideLayersLoop bo.overrides expanded blockArgs allowed
      (List.range nLayers) .initial

/-! ## Part 6: sequence-id packing logic
(`_get_attn_mask_in_len_seq_one_hot`, `gen_sequence_id_info`)

Integer tensors are lists of rows (rectangular in every theorem);
`attention_mask` is a list of boolean rows. -/

/-- One row of `torch.nn.functional.one_hot` with `numClasses` classes. -/
def oneHotRow (numClasses : Nat) (s : Int) : List Int :=
  (List.range numClasses).map (fun k => if s = (k : Int) then 1 else 0)

/-- `shape[-1]` of a rectangular 2-d tensor. -/
def tensorWidth (rows : List (List Int)) : Nat :=
  (rows.headD []).length

/-- Vector sum over the time axis (`tensor.sum(dim=1)` for one batch row). -/
def sumRows (width : Nat) (rows : List (List Int)) : List Int :=
  rows.foldl (fun acc r => List.zipWith (· + ·) acc r)
    (List.replicate width 0)

/-- Cumulative vector sums over the time axis (`cumsum(dim=1)` for one batch
row), given the running accumulator. -/
def cumsumRows (acc : List Int) : List (List Int) → List (List Int)
  | [] => []
  | r :: rs =>
    let s := List.zipWith (· + ·) acc r
    s :: cumsumRows s rs

/-- `F.pad(row, (0, S - row.length))`: pad with zeros on the right, or
truncate when the pad amount is negative. -/
def padTruncRow (S : Nat) (row : List Int) : List Int :=
  if row.length ≤ S then row ++ List.replicate (S - row.length) 0
  else row.take S

/-- `_get_attn_mask_in_len_seq_one_hot`: when sequence-id masking is active
(`sequence_id` supplied, `attn_uses_sequence_id`, flash implementation),
reject left padding, check the sequence length, one-hot encode the
(pad-zeroed) sequence ids, zero the one-hot rows at padded positions, and
sum over the time axis into a per-row segment-length encoding padded with
zeros to width `S`.  Returns `(attention_mask_in_length, sequence_id_one_hot)`.
`one_hot` on a negative id raises in torch and is modelled as an error. -/
def genAttnMaskInLenSeqOneHot (sequenceId : Option (List (List Int)))
    (S : Nat) (attnUsesSequenceId : Bool) (attnImpl : String)
    (attentionMask : Option (List (List Bool))) :
    Except String (Option (List (List Int)) × Option (List (List (List Int)))) :=
  match sequenceId with
  | none => .ok (none, none)
  | some sid =>
    if attnUsesSequenceId && (attnImpl == "flash") then
      let leftPadBad : Bool := match attentionMask with
        | some m => ((m.map (fun (r : List Bool) => r.headD false)).count true)
            != m.length
        | none => false
      if leftPadBad then
        .error "Left padding is not supported with flash attention when attn_uses_sequence_id is set to True."
      else if S ≠ tensorWidth sid then
        .error "Sequence length does not match length of sequences in sequence_id"
      else
        let sid' : List (List Int) := match attentionMask with
          | some m => List.zipWith
              (fun (sr : List Int) (mr : List Bool) =>
                List.zipWith (fun s mb => if mb then s else 0) sr mr)
              sid m
          | none => sid
        if sid'.flatten.any (· < 0) then
          .error "one_hot is not defined on negative ids"
        else
          let numClasses := (sid'.flatten.foldl max 0).toNat + 1
          let oneHot0 := sid'.map (fun row => row.map (oneHotRow numClasses))
          let oneHot : List (List (List Int)) := match attentionMask with
            | some m => List.zipWith
                (fun (ohr : List (List Int)) (mr : List Bool) =>
                  List.zipWith
                    (fun v mb =>
                      if mb then v else List.replicate numClasses (0 : Int))
                    ohr mr)
                oneHot0 m
            | none => oneHot0
          let amil := oneHot.map (fun ohr =>
            padTruncRow S (sumRows numClasses ohr))
          .ok (some amil, some oneHot)
    else .ok (none, none)

/-- One row of `pos_id_within_seq`: masked cumulative sum of the one-hot
encoding, contracted against the one-hot encoding, minus one. -/
def posIdsRow (oneHotR : List (List Int)) : List Int :=
  let width := (oneHotR.headD []).length
  let cs := cumsumRows (List.replicate width 0) oneHotR
  (oneHotR.zip cs).map (fun p => (List.zipWith (· * ·) p.1 p.2).sum - 1)

/-- `gen_sequence_id_info`: the segment-length encoding and the per-token
position-within-sequence indices, both derived from the same one-hot
encoding; when sequence-id masking is inactive the positions fall back to
`torch.arange(S)[None, :]`. -/
def genSequenceIdInfo (sequenceId : Option (List (List Int))) (S : Nat)
    (attnUsesSequenceId : Bool) (attnImpl : String)
    (attentionMask : Option (List (List Bool))) :
    Except String (Option (List (List Int)) × List (List Int)) := do
  let r ← genAttnMaskInLenSeqOneHot sequenceId S attnUsesSequenceId attnImpl
    attentionMask
  match r.2 with
  | some oneHot => .ok (r.1, oneHot.map posIdsRow)
  | none => .ok (none, [(List.range S).map Int.ofNat])

/-! ## Part 7: loss computation
(`get_targets`, `compute_loss_from_logits`, the `MPTForCausalLM.forward`
loss path)

The per-token cross-entropy kernel (a `reduction='none'` loss over one
logits row and one target id) is an external collaborator, passed in as
`lossFn : List ℚ → Int → ℚ`; losses are rationals.  Labels/targets are
lists of rows; flattened logits are a list of per-token logits rows. -/

def CROSS_ENTROPY_IGNORE_INDEX : Int := -100

/-- Re-chunk a flat list into rows of the given lengths. -/
def reshapeLike : List Nat → List Int → List (List Int)
  | [], _ => []
  | n :: ns, xs => xs.take n :: reshapeLike ns (xs.drop n)

/-- `get_targets` / the target construction in `MPTForCausalLM.forward`:
`torch.roll(labels, shifts=-1)` flattens the tensor and rotates it left by
one, then `targets[:, -1] = CROSS_ENTROPY_IGNORE_INDEX` overwrites the last
position of every row.  (On a zero-width row the final assignment would
raise in torch; rows are non-empty in every theorem.) -/
def getTargets (labels : List (List Int)) : List (List Int) :=
  let flat := labels.flatten.rotateLeft 1
  let rows := reshapeLike (labels.map List.length) flat
  rows.map (fun r => r.dropLast ++ [CROSS_ENTROPY_IGNORE_INDEX])

/-- `compute_loss_from_logits`: per-token losses from the `reduction='none'`
loss kernel; if every target equals `loss_fn.ignore_index` the losses are
summed, otherwise summed and divided by the number of non-ignored
targets. -/
def computeLossFromLogits (lossFn : List ℚ → Int → ℚ) (ignoreIndex : Int)
    (shiftLabels : Bool) (labels : List (List Int))
    (logitsFlat : List (List ℚ)) : ℚ :=
  let targets := if shiftLabels then getTargets labels else labels
  let tf := targets.flatten
  let losses := (logitsFlat.zip tf).map (fun p => lossFn p.1 p.2)
  if tf.all (· = ignoreIndex) then losses.sum
  else losses.sum / (((tf.filter (· ≠ ignoreIndex)).length : ℤ) : ℚ)

/-- The `labels is not None` loss path of `MPTForCausalLM.forward`:
`F.cross_entropy` with default `reduction='mean'` and default
`ignore_index=-100` — the sum of the non-ignored per-token losses divided
by the number of non-ignored targets, with no all-ignored guard (`none`
models the NaN produced by the 0/0 mean). -/
def mptForCausalLMLoss (lossFn : List ℚ → Int → ℚ)
    (labels : List (List Int)) (logitsFlat : List (List ℚ)) : Option ℚ :=
  let targets := getTargets labels
  let tf := targets.flatten
  let k := (tf.filter (· ≠ CROSS_ENTROPY_IGNORE_INDEX)).length
  if k = 0 then none
  else some ((((logitsFlat.zip tf).filter
      (fun p => p.2 ≠ CROSS_ENTROPY_IGNORE_INDEX)).map
      (fun p => lossFn p.1 p.2)).sum / ((k : ℤ) : ℚ))

/-! ## Lemmas on the windowing loop -/

theorem emitWindows_pos (maxLen : Nat) (wrap : Bool) (buffer : List Int)
    (h1 : 0 < maxLen) (h2 : maxLen ≤ buffer.length) :
    emitWindows maxLen wrap buffer =
      (buffer.take maxLen ::
        (emitWindows maxLen wrap (if wrap then buffer.drop maxLen else [])).1,
       (emitWindows maxLen wrap (if wrap then buffer.drop maxLen else [])).2) := by
  rw [emitWindows]
  simp [h1, h2]

theorem emitWindows_neg (maxLen : Nat) (wrap : Bool) (buffer : List Int)
    (h : buffer.length < maxLen) :
    emitWindows maxLen wrap buffer = ([], buffer) := by
  rw [emitWindows]
  have hn : ¬(0 < maxLen ∧ maxLen ≤ buffer.length) := by omega
  simp [hn]

/-- With wrapping enabled, the emitted windows and the remaining buffer
partition the input; every window has length `maxLen`, the remainder is
shorter than `maxLen`, and the window count is `⌊length / maxLen⌋`. -/
theorem emitWindows_wrap_spec (maxLen : Nat) (h1 : 0 < maxLen)
    (buffer : List Int) :
    (emitWindows maxLen true buffer).1.flatten ++
        (emitWindows maxLen true buffer).2 = buffer
    ∧ (∀ w ∈ (emitWindows maxLen true buffer).1, w.length = maxLen)
    ∧ (emitWindows maxLen true buffer).2.length < maxLen
    ∧ (emitWindows maxLen true buffer).1.length = buffer.length / maxLen := by
  by_cases h2 : maxLen ≤ buffer.length
  · have ih := emitWindows_wrap_spec maxLen h1 (buffer.drop maxLen)
    rw [emitWindows_pos maxLen true buffer h1 h2]
    simp only [if_pos, List.flatten_cons, List.mem_cons, List.length_cons]
    refine ⟨?_, ?_, ih.2.2.1, ?_⟩
    · rw [List.append_assoc, ih.1, List.take_append_drop]
    · rintro w (rfl | hw)
      · simp only [List.length_take]
        omega
      · exact ih.2.1 w hw
    · have hd := ih.2.2.2
      rw [List.length_drop] at hd
      rw [hd, Nat.div_eq_sub_div h1 h2]
  · have hlt : buffer.length < maxLen := by omega
    rw [emitWindows_neg maxLen true buffer hlt]
    simp [Nat.div_eq_of_lt hlt, hlt]
termination_by buffer.length
decreasing_by
  rw [List.length_drop]
  omega

theorem processChunks_wrap_spec (bosId : Option Int) (m : Nat) (h1 : 0 < m)
    (cs : List (List Int)) :
    ∀ (first : Bool) (buffer : List Int),
      (processChunks bosId m true cs first buffer).1.flatten ++
          (processChunks bosId m true cs first buffer).2 =
        buffer ++ chunksTokensAux bosId first cs
      ∧ ∀ w ∈ (processChunks bosId m true cs first buffer).1,
          w.length = m := by
  induction cs with
  | nil => simp [processChunks, chunksTokensAux]
  | cons c cs ih =>
    intro first buffer
    simp only [processChunks, chunksTokensAux]
    have e1 := emitWindows_wrap_spec m h1
      (buffer ++ (if first then c else stripDupBos bosId c))
    have e2 := ih false
      (emitWindows m true
        (buffer ++ (if first then c else stripDupBos bosId c))).2
    constructor
    · rw [List.flatten_append, List.append_assoc, e2.1, ← List.append_assoc,
        e1.1, List.append_assoc]
    · intro w hw
      rw [List.mem_append] at hw
      rcases hw with hw | hw
      · exact e1.2.1 w hw
      · exact e2.2 w hw

theorem processFiles_wrap_spec (bos eos : List Int) (bosId : Option Int)
    (m : Nat) (h1 : 0 < m) (files : List (List (List Int))) :
    ∀ (buffer : List Int),
      (processFiles bos eos bosId m true files buffer).1.flatten ++
          (processFiles bos eos bosId m true files buffer).2 =
        buffer ++ allTokens bos eos bosId files
      ∧ ∀ w ∈ (processFiles bos eos bosId m true files buffer).1,
          w.length = m := by
  induction files with
  | nil => simp [processFiles, allTokens]
  | cons f fs ih =>
    intro buffer
    simp only [processFiles, processFile]
    have e1 := processChunks_wrap_spec bosId m h1 f true (buffer ++ bos)
    have e2 := ih ((processChunks bosId m true f true (buffer ++ bos)).2 ++ eos)
    constructor
    · rw [List.flatten_append, List.append_assoc, e2.1, ← List.append_assoc,
        ← List.append_assoc, e1.1]
      simp [allTokens, chunksTokens]
    · intro w hw
      rw [List.mem_append] at hw
      rcases hw with hw | hw
      · exact e1.2 w hw
      · exact e2.2 w hw

theorem flatten_length_uniform {m : Nat} :
    ∀ (ws : List (List Int)), (∀ w ∈ ws, w.length = m) →
      ws.flatten.length = ws.length * m := by
  intro ws
  induction ws with
  | nil => simp
  | cons w ws ih =>
    intro h
    simp only [List.flatten_cons, List.length_append, List.length_cons]
    rw [h w (by simp), ih (fun x hx => h x (by simp [hx]))]
    ring

/-- With wrapping enabled, the dataset iterator yields exactly
`⌊total / maxLen⌋` windows of length exactly `maxLen`, where `total` is the
length of the full concatenated token stream; the remainder shorter than
`maxLen` is dropped. -/
theorem concatIter_wrap_spec (bos eos : List Int) (bosId : Option Int)
    (m : Nat) (h1 : 0 < m) (files : List (List (List Int))) :
    (∀ w ∈ concatTokensFromFilesIter bos eos bosId m true files,
        w.length = m)
    ∧ (concatTokensFromFilesIter bos eos bosId m true files).length =
        (allTokens bos eos bosId files).length / m := by
  have e1 := processFiles_wrap_spec bos eos bosId m h1 files []
  have e2 := emitWindows_wrap_spec m h1
    (processFiles bos eos bosId m true files []).2
  have hmem : ∀ w ∈ concatTokensFromFilesIter bos eos bosId m true files,
      w.length = m := by
    intro w hw
    simp only [concatTokensFromFilesIter, List.mem_append] at hw
    rcases hw with hw | hw
    · exact e1.2 w hw
    · exact e2.2.1 w hw
  refine ⟨hmem, ?_⟩
  have htot : (concatTokensFromFilesIter bos eos bosId m true files).flatten.length
      + (emitWindows m true (processFiles bos eos bosId m true files []).2).2.length
      = (allTokens bos eos bosId files).length := by
    simp only [concatTokensFromFilesIter]
    rw [List.flatten_append, ← List.length_append, List.append_assoc, e2.1,
      e1.1]
    simp
  rw [flatten_length_uniform _ hmem] at htot
  have hrem := e2.2.2.1
  have hkey : (allTokens bos eos bosId files).length =
      m * (concatTokensFromFilesIter bos eos bosId m true files).length
      + (emitWindows m true (processFiles bos eos bosId m true files []).2).2.length := by
    rw [Nat.mul_comm]
    omega
  rw [hkey, Nat.mul_add_div h1, Nat.div_eq_of_lt hrem]
  omega

/-- C1, counterexample: with files A (10 tokens) and B (5 tokens), empty
BOS, a 1-token EOS, window length 8 and wrapping enabled, the iterator does
NOT yield `⌈(10+1+5+1)/8⌉ = 3` windows — it yields 2 and drops the 1-token
remainder. -/
theorem claim_C1_counterexample :
    ¬((concatTokensFromFilesIter [] [99] none 8 true
        [[[1, 2, 3, 4, 5, 6, 7, 8, 9, 10]], [[11, 12, 13, 14, 15]]]).length
      = (10 + 1 + 5 + 1 + 8 - 1) / 8) := by
  simp [concatTokensFromFilesIter, processFiles, processFile, processChunks,
    emitWindows, stripDupBos]

/-- C1 (amended): for files A (10 tokens) and B (5 tokens), each a single
tokenizer chunk, empty BOS text, an EOS text tokenizing to 1 token, window
length 8 and wrapping enabled, the iterator yields exactly
`⌊(10+1+5+1)/8⌋ = 2` windows, every yielded window has length exactly 8
(the trailing `17 mod 8 = 1` tokens are discarded, not yielded as a short
final window), and the total concatenated token count before windowing
equals `10+1+5+1 = 17`. -/
theorem claim_C1_window_count (a b eosT : List Int) (bosId : Option Int)
    (ha : a.length = 10) (hb : b.length = 5) (he : eosT.length = 1) :
    (concatTokensFromFilesIter [] eosT bosId 8 true [[a], [b]]).length = 2
    ∧ (∀ w ∈ concatTokensFromFilesIter [] eosT bosId 8 true [[a], [b]],
        w.length = 8)
    ∧ (allTokens [] eosT bosId [[a], [b]]).length = 17 := by
  have hs := concatIter_wrap_spec [] eosT bosId 8 (by norm_num) [[a], [b]]
  have htot : (allTokens [] eosT bosId [[a], [b]]).length = 17 := by
    simp [allTokens, chunksTokens, chunksTokensAux, ha, hb, he]
  refine ⟨?_, hs.1, htot⟩
  rw [hs.2, htot]

theorem claim_C1_witness :
    (concatTokensFromFilesIter [] [99] none 8 true
        [[[1, 2, 3, 4, 5, 6, 7, 8, 9, 10]], [[11, 12, 13, 14, 15]]]).length = 2
    ∧ (allTokens [] [99] none
        [[[1, 2, 3, 4, 5, 6, 7, 8, 9, 10]], [[11, 12, 13, 14, 15]]]).length = 17 :=
  ⟨(claim_C1_window_count [1, 2, 3, 4, 5, 6, 7, 8, 9, 10] [11, 12, 13, 14, 15]
      [99] none rfl rfl rfl).1,
   (claim_C1_window_count [1, 2, 3, 4, 5, 6, 7, 8, 9, 10] [11, 12, 13, 14, 15]
      [99] none rfl rfl rfl).2.2⟩

/-! ## Lemmas on the done-file encoding -/

theorem splitlinesAux_terminal (l : List Char) :
    ∀ acc : List Char, (∀ c ∈ l, c ≠ '\n') →
      splitlinesAux acc (l ++ ['\n']) = [acc.reverse ++ l] := by
  induction l with
  | nil => intro acc _; simp [splitlinesAux]
  | cons c l ih =>
    intro acc h
    have hc : c ≠ '\n' := h c (by simp)
    simp only [List.cons_append, splitlinesAux, if_neg hc]
    simp only [List.append_eq]
    rw [ih (c :: acc) (fun x hx => h x (by simp [hx]))]
    simp

theorem splitlinesAux_mid (l : List Char) (r : List Char) (hr : r ≠ []) :
    ∀ acc : List Char, (∀ c ∈ l, c ≠ '\n') →
      splitlinesAux acc (l ++ '\n' :: r) =
        (acc.reverse ++ l) :: splitlinesAux [] r := by
  induction l with
  | nil =>
    intro acc _
    cases r with
    | nil => exact absurd rfl hr
    | cons c' r' => simp [splitlinesAux]
  | cons c l ih =>
    intro acc h
    have hc : c ≠ '\n' := h c (by simp)
    simp only [List.cons_append, splitlinesAux, if_neg hc]
    simp only [List.append_eq]
    rw [ih (c :: acc) (fun x hx => h x (by simp [hx]))]
    simp

theorem pySplitlines_joinLines (lines : List (List Char)) :
    lines ≠ [] → (∀ l ∈ lines, ∀ c ∈ l, c ≠ '\n') →
      pySplitlines (joinLines lines ++ ['\n']) = lines := by
  induction lines with
  | nil => intro h; exact absurd rfl h
  | cons l ls ih =>
    intro _ h
    cases ls with
    | nil =>
      show pySplitlines (joinLines [l] ++ ['\n']) = [l]
      rw [pySplitlines, if_neg (by simp [joinLines])]
      show splitlinesAux [] (l ++ ['\n']) = [l]
      rw [splitlinesAux_terminal l [] (h l (by simp))]
      simp
    | cons l2 ls2 =>
      have hj : joinLines (l :: l2 :: ls2) = l ++ '\n' :: joinLines (l2 :: ls2) := by
        rfl
      rw [pySplitlines, if_neg (by simp [hj]), hj, List.append_assoc,
        List.cons_append]
      rw [splitlinesAux_mid l (joinLines (l2 :: ls2) ++ ['\n'])
        (by simp) [] (h l (by simp))]
      have ihr := ih (by simp) (fun x hx => h x (by simp [hx]))
      rw [pySplitlines, if_neg (by simp)] at ihr
      rw [ihr]
      simp

/-- The done-file contents written by `write_done_file` split back into the
argument line followed by the object names, provided none contains a
newline. -/
theorem pySplitlines_writeDoneFile (argsStr : List Char)
    (names : List (List Char)) (hA : ∀ c ∈ argsStr, c ≠ '\n')
    (hN : ∀ l ∈ names, ∀ c ∈ l, c ≠ '\n') :
    pySplitlines (writeDoneFileContents argsStr names) = argsStr :: names := by
  apply pySplitlines_joinLines (argsStr :: names) (by simp)
  intro l hl
  rcases List.mem_cons.mp hl with rfl | hl
  · exact hA
  · exact hN l hl

theorem zipAll_eq_iff {α : Type} [DecidableEq α] :
    ∀ xs ys : List α, xs.length = ys.length →
      ((((xs.zip ys).all fun p => p.2 = p.1) = true) ↔ xs = ys)
  | [], [] => by simp
  | [], _ :: _ => by simp
  | _ :: _, [] => by simp
  | x :: xs, y :: ys => by
    intro h
    have ihr := zipAll_eq_iff xs ys (by simpa using h)
    simp only [List.zip_cons_cons, List.all_cons, Bool.and_eq_true,
      decide_eq_true_eq, List.cons.injEq]
    constructor
    · rintro ⟨h1, h2⟩
      exact ⟨h1.symm, ihr.mp h2⟩
    · rintro ⟨h1, h2⟩
      exact ⟨h1.symm, ihr.mpr h2⟩

/-- C7: immediately after `write_done_file(folder, args_str, names)`,
`is_already_processed(folder, args_str, names)` returns `True`; and it
returns `False` whenever the stored argument string differs from the
current one, or the stored name list differs from the current one in count,
content or order (newline-free arguments and names). -/
theorem claim_C7_done_file_roundtrip (argsStr argsStr' : List Char)
    (names names' : List (List Char)) (hA : ∀ c ∈ argsStr', c ≠ '\n')
    (hN : ∀ l ∈ names', ∀ c ∈ l, c ≠ '\n') :
    (isAlreadyProcessed (some (writeDoneFileContents argsStr' names'))
        argsStr names = true)
    ↔ (argsStr' = argsStr ∧ names' = names) := by
  have hsplit := pySplitlines_writeDoneFile argsStr' names' hA hN
  simp only [isAlreadyProcessed, hsplit]
  by_cases h1 : argsStr' = argsStr
  · rw [if_neg (by simp [h1])]
    by_cases h2 : names'.length = names.length
    · rw [if_neg (by simp [h2])]
      rw [zipAll_eq_iff names' names h2]
      simp [h1]
    · rw [if_pos (by simp [h2])]
      constructor
      · intro hfalse; cases hfalse
      · rintro ⟨-, rfl⟩; exact absurd rfl h2
  · rw [if_pos (by simp [h1])]
    constructor
    · intro hfalse; cases hfalse
    · rintro ⟨rfl, -⟩; exact absurd rfl h1

theorem claim_C7_witness :
    (isAlreadyProcessed
        (some (writeDoneFileContents ['a'] [['b'], ['c']])) ['a']
        [['b'], ['c']] = true)
    ∧ (isAlreadyProcessed
        (some (writeDoneFileContents ['a'] [['b'], ['c']])) ['a']
        [['c'], ['b']] = false) := by
  constructor
  · exact (claim_C7_done_file_roundtrip ['a'] ['a'] [['b'], ['c']]
      [['b'], ['c']] (by decide) (by decide)).mpr ⟨rfl, rfl⟩
  · have h := claim_C7_done_file_roundtrip ['a'] ['a'] [['c'], ['b']]
      [['b'], ['c']] (by decide) (by decide)
    cases hb : isAlreadyProcessed
        (some (writeDoneFileContents ['a'] [['b'], ['c']])) ['a']
        [['c'], ['b']] with
    | false => rfl
    | true => exact absurd ((h.mp hb).2) (by decide)

/-- C8: with `use_tokenizer_eos=True` and a non-`None` `eos_text`,
`convert_text_to_mds_from_args` does NOT raise: the `ValueError` constructed
on the mutual-exclusion path is never raised (the `raise` keyword is
missing), execution continues, and the explicit EOS text is silently
overwritten with the tokenizer's EOS token — contradicting the function's
own docstring (`Raises: ValueError ...`). -/
theorem claim_C8_mutual_exclusion_not_enforced :
    convertTextToMdsFromArgsEos true (some ['b']) (some ['e']) ['t']
      = .ok (['b'], ['t']) := rfl

/-- C9, counterexample: with `reprocess=True`, a non-empty input folder, no
done file, and a non-empty pre-existing output folder, `convert_text_to_mds`
still raises the non-empty-output-folder error — the check at the top of the
conversion path is reached and applied regardless of `reprocess`. -/
theorem claim_C9_counterexample :
    convertTextToMds ⟨[['a']], none, true, true⟩ [] true
      = .error .outputFolderNotEmpty := rfl

/-- C9 (amended): the non-empty-pre-existing-output-folder error is raised
whenever the run is not skipped by the already-processed early return (which
requires `reprocess=False`) and the output folder pre-exists non-empty — in
particular it IS raised with `reprocess=True`; conversely, whenever the
error is raised the output folder was indeed non-empty. -/
theorem claim_C9_output_folder_check :
    (∀ (env : ConvertEnv) (argsStr : List Char), env.objectNames ≠ [] →
      env.outputFolderNonEmpty = true →
      convertTextToMds env argsStr true = .error .outputFolderNotEmpty)
    ∧ (∀ (env : ConvertEnv) (argsStr : List Char) (reprocess : Bool),
      convertTextToMds env argsStr reprocess = .error .outputFolderNotEmpty →
      env.outputFolderNonEmpty = true) := by
  constructor
  · intro env argsStr hne hfull
    unfold convertTextToMds
    rw [if_neg (by simpa using hne)]
    simp [hfull]
  · intro env argsStr reprocess h
    unfold convertTextToMds at h
    split_ifs at h with h1 h2 h3 h4 <;> simp_all

theorem claim_C9_witness :
    convertTextToMds ⟨[['x'], ['y']], some ['z'], true, true⟩ ['z'] true
      = .error .outputFolderNotEmpty :=
  claim_C9_output_folder_check.1 ⟨[['x'], ['y']], some ['z'], true, true⟩
    ['z'] (by simp) rfl

/-- C4: for a packed row with documents of lengths 2 and 3 in a 6-token row
(sequence ids `[0,0,1,1,1,-1]`, final position padded), the segment-length
encoding begins `[2, 3]` padded with zeros to the sequence length, and the
per-token positions `[0,1,0,1,2,-1]` restart at 0 at each document boundary
(`-1` at the padded position); both are returned together by
`gen_sequence_id_info` from the same one-hot encoding. -/
theorem claim_C4_sequence_id_info :
    genSequenceIdInfo (some [[0, 0, 1, 1, 1, -1]]) 6 true "flash"
        (some [[true, true, true, true, true, false]])
      = .ok (some [[2, 3, 0, 0, 0, 0]], [[0, 1, 0, 1, 2, -1]]) := rfl

/-- C5: whenever sequence-id masking is active (sequence ids supplied,
`attn_uses_sequence_id`, flash implementation) and the supplied attention
mask exhibits left padding (the sum of its first column differs from the
batch size), mask generation raises the designated unsupported error rather
than producing a mask — both in `_get_attn_mask_in_len_seq_one_hot` and
through `gen_sequence_id_info`. -/
theorem claim_C5_left_padding_rejected (sid : List (List Int)) (S : Nat)
    (m : List (List Bool))
    (hpad : ((m.map fun r => r.headD false).count true) ≠ m.length) :
    genAttnMaskInLenSeqOneHot (some sid) S true "flash" (some m)
      = .error "Left padding is not supported with flash attention when attn_uses_sequence_id is set to True."
    ∧ genSequenceIdInfo (some sid) S true "flash" (some m)
      = .error "Left padding is not supported with flash attention when attn_uses_sequence_id is set to True." := by
  have h1 : genAttnMaskInLenSeqOneHot (some sid) S true "flash" (some m)
      = .error "Left padding is not supported with flash attention when attn_uses_sequence_id is set to True." := by
    unfold genAttnMaskInLenSeqOneHot
    simp only [Bool.and_self, if_true, beq_self_eq_true]
    simp
    intro hc
    exact absurd hc (by simpa using hpad)
  refine ⟨h1, ?_⟩
  unfold genSequenceIdInfo
  rw [h1]
  rfl

theorem claim_C5_witness :
    genSequenceIdInfo (some [[0, 0]]) 2 true "flash"
        (some [[false, true]])
      = .error "Left padding is not supported with flash attention when attn_uses_sequence_id is set to True." :=
  (claim_C5_left_padding_rejected [[0, 0]] 2 [[false, true]] (by decide)).2

/-! ## Lemmas on the loss computation -/

theorem zip_losses_sum_zero (lossFn : List ℚ → Int → ℚ)
    (hfn : ∀ r, lossFn r CROSS_ENTROPY_IGNORE_INDEX = 0)
    (logitsFlat : List (List ℚ)) (tf : List Int)
    (h : ∀ t ∈ tf, t = CROSS_ENTROPY_IGNORE_INDEX) :
    ((logitsFlat.zip tf).map fun p => lossFn p.1 p.2).sum = 0 := by
  apply List.sum_eq_zero
  intro x hx
  rcases List.mem_map.mp hx with ⟨p, hp, rfl⟩
  have hmem : p.2 ∈ tf := (List.of_mem_zip hp).2
  rw [h p.2 hmem, hfn]

theorem filtered_losses_sum (lossFn : List ℚ → Int → ℚ)
    (hfn : ∀ r, lossFn r CROSS_ENTROPY_IGNORE_INDEX = 0) :
    ∀ l : List (List ℚ × Int),
      (((l.filter fun p => p.2 ≠ CROSS_ENTROPY_IGNORE_INDEX).map
        fun p => lossFn p.1 p.2).sum)
      = ((l.map fun p => lossFn p.1 p.2).sum) := by
  intro l
  induction l with
  | nil => simp
  | cons p l ih =>
    by_cases hp : p.2 = CROSS_ENTROPY_IGNORE_INDEX
    · rw [List.filter_cons_of_neg (by simp [hp])]
      simp only [List.map_cons, List.sum_cons, ih, hp, hfn, zero_add]
    · rw [List.filter_cons_of_pos (by simp [hp])]
      simp only [List.map_cons, List.sum_cons]
      simp only [ne_eq] at ih ⊢
      rw [ih]

theorem ignored_filter_length_zero (tf : List Int)
    (h : (tf.all (· = CROSS_ENTROPY_IGNORE_INDEX)) = true) :
    (tf.filter (· ≠ CROSS_ENTROPY_IGNORE_INDEX)).length = 0 := by
  rw [List.length_eq_zero, List.filter_eq_nil_iff]
  intro a ha
  have := List.all_eq_true.mp h a ha
  simpa using this

theorem not_all_ignored_filter_length_pos (tf : List Int)
    (h : (tf.all (· = CROSS_ENTROPY_IGNORE_INDEX)) = false) :
    0 < (tf.filter (· ≠ CROSS_ENTROPY_IGNORE_INDEX)).length := by
  rw [List.all_eq_false] at h
  obtain ⟨x, hx, hne⟩ := h
  have hmem : x ∈ tf.filter (· ≠ CROSS_ENTROPY_IGNORE_INDEX) :=
    List.mem_filter.mpr ⟨hx, by simpa using hne⟩
  exact List.length_pos.mpr (List.ne_nil_of_mem hmem)

/-- On an all-ignored target batch `compute_loss_from_logits` takes the
summing branch, and since the `reduction='none'` kernel maps ignored targets
to 0 the result is exactly 0 — finite, with no division by the zero count. -/
theorem computeLoss_all_ignored (lossFn : List ℚ → Int → ℚ)
    (labels : List (List Int)) (logitsFlat : List (List ℚ))
    (hfn : ∀ r, lossFn r CROSS_ENTROPY_IGNORE_INDEX = 0)
    (hall : ((getTargets labels).flatten.all
      (· = CROSS_ENTROPY_IGNORE_INDEX)) = true) :
    computeLossFromLogits lossFn CROSS_ENTROPY_IGNORE_INDEX true labels
        logitsFlat
      = ((logitsFlat.zip (getTargets labels).flatten).map
          fun p => lossFn p.1 p.2).sum
    ∧ computeLossFromLogits lossFn CROSS_ENTROPY_IGNORE_INDEX true labels
        logitsFlat = 0 := by
  have hbranch : computeLossFromLogits lossFn CROSS_ENTROPY_IGNORE_INDEX true
      labels logitsFlat
      = ((logitsFlat.zip (getTargets labels).flatten).map
          fun p => lossFn p.1 p.2).sum := by
    unfold computeLossFromLogits
    simp only [if_true]
    rw [if_pos hall]
  refine ⟨hbranch, hbranch.trans ?_⟩
  exact zip_losses_sum_zero lossFn hfn logitsFlat _
    (fun t ht => by simpa using List.all_eq_true.mp hall t ht)

theorem computeLoss_not_all_ignored (lossFn : List ℚ → Int → ℚ)
    (labels : List (List Int)) (logitsFlat : List (List ℚ))
    (hnot : ((getTargets labels).flatten.all
      (· = CROSS_ENTROPY_IGNORE_INDEX)) = false) :
    computeLossFromLogits lossFn CROSS_ENTROPY_IGNORE_INDEX true labels
        logitsFlat
      = ((logitsFlat.zip (getTargets labels).flatten).map
          fun p => lossFn p.1 p.2).sum
        / ((((getTargets labels).flatten.filter
            (· ≠ CROSS_ENTROPY_IGNORE_INDEX)).length : ℤ) : ℚ) := by
  unfold computeLossFromLogits
  simp only [if_true]
  rw [if_neg (by simp [hnot])]

/-- C6: with shifted targets, an all-ignored batch makes
`compute_loss_from_logits` return the plain sum of the per-token losses
(no division by the zero count of non-ignored targets), which equals 0 —
finite and well defined; with at least one non-ignored target it returns
the sum of the per-token losses divided by the (positive) count of
non-ignored targets. -/
theorem claim_C6_all_ignored_loss_guard (lossFn : List ℚ → Int → ℚ)
    (labels : List (List Int)) (logitsFlat : List (List ℚ))
    (hfn : ∀ r, lossFn r CROSS_ENTROPY_IGNORE_INDEX = 0) :
    (((getTargets labels).flatten.all
        (· = CROSS_ENTROPY_IGNORE_INDEX)) = true →
      computeLossFromLogits lossFn CROSS_ENTROPY_IGNORE_INDEX true labels
          logitsFlat
        = ((logitsFlat.zip (getTargets labels).flatten).map
            fun p => lossFn p.1 p.2).sum
      ∧ computeLossFromLogits lossFn CROSS_ENTROPY_IGNORE_INDEX true labels
          logitsFlat = 0)
    ∧ (((getTargets labels).flatten.all
        (· = CROSS_ENTROPY_IGNORE_INDEX)) = false →
      computeLossFromLogits lossFn CROSS_ENTROPY_IGNORE_INDEX true labels
          logitsFlat
        = ((logitsFlat.zip (getTargets labels).flatten).map
            fun p => lossFn p.1 p.2).sum
          / ((((getTargets labels).flatten.filter
              (· ≠ CROSS_ENTROPY_IGNORE_INDEX)).length : ℤ) : ℚ)
      ∧ 0 < ((getTargets labels).flatten.filter
          (· ≠ CROSS_ENTROPY_IGNORE_INDEX)).length) := by
  constructor
  · intro hall
    exact computeLoss_all_ignored lossFn labels logitsFlat hfn hall
  · intro hnot
    exact ⟨computeLoss_not_all_ignored lossFn labels logitsFlat hnot,
      not_all_ignored_filter_length_pos _ hnot⟩

theorem claim_C6_witness :
    computeLossFromLogits
        (fun _ t => if t = CROSS_ENTROPY_IGNORE_INDEX then 0 else 1)
        CROSS_ENTROPY_IGNORE_INDEX true [[-100, -100]] [[0], [0]] = 0
    ∧ 0 < ((getTargets [[5, 7]]).flatten.filter
        (· ≠ CROSS_ENTROPY_IGNORE_INDEX)).length := by
  constructor
  · exact ((claim_C6_all_ignored_loss_guard _ [[-100, -100]] [[0], [0]]
      (fun r => by simp)).1 (by decide)).2
  · exact ((claim_C6_all_ignored_loss_guard
      (fun _ t => if t = CROSS_ENTROPY_IGNORE_INDEX then 0 else 1) [[5, 7]]
      [[0], [1]] (fun r => by simp)).2 (by decide)).2

/-- C10: the `MPTForCausalLM.forward` loss path always divides by the count
of non-ignored shifted targets (mean cross-entropy over `get_targets`-style
targets): when at least one target is non-ignored it returns exactly the
value `compute_loss_from_logits` produces, and when every target is ignored
it produces NaN (modelled `none`) — the summing guard exists only in
`compute_loss_from_logits`, which the Composer loss wrapper uses, not the
forward method. -/
theorem claim_C10_forward_loss_no_guard (lossFn : List ℚ → Int → ℚ)
    (labels : List (List Int)) (logitsFlat : List (List ℚ))
    (hfn : ∀ r, lossFn r CROSS_ENTROPY_IGNORE_INDEX = 0) :
    (((getTargets labels).flatten.all
        (· = CROSS_ENTROPY_IGNORE_INDEX)) = true →
      mptForCausalLMLoss lossFn labels logitsFlat = none
      ∧ computeLossFromLogits lossFn CROSS_ENTROPY_IGNORE_INDEX true labels
          logitsFlat = 0)
    ∧ (((getTargets labels).flatten.all
        (· = CROSS_ENTROPY_IGNORE_INDEX)) = false →
      mptForCausalLMLoss lossFn labels logitsFlat
        = some (computeLossFromLogits lossFn CROSS_ENTROPY_IGNORE_INDEX true
            labels logitsFlat)) := by
  constructor
  · intro hall
    refine ⟨?_, (computeLoss_all_ignored lossFn labels logitsFlat hfn hall).2⟩
    unfold mptForCausalLMLoss
    rw [if_pos (ignored_filter_length_zero _ hall)]
  · intro hnot
    have hk := not_all_ignored_filter_length_pos _ hnot
    unfold mptForCausalLMLoss
    rw [if_neg (by omega)]
    rw [computeLoss_not_all_ignored lossFn labels logitsFlat hnot]
    rw [filtered_losses_sum lossFn hfn]

theorem claim_C10_witness :
    mptForCausalLMLoss
        (fun _ t => if t = CROSS_ENTROPY_IGNORE_INDEX then 0 else 1)
        [[-100, -100]] [[0], [0]] = none
    ∧ mptForCausalLMLoss
        (fun _ t => if t = CROSS_ENTROPY_IGNORE_INDEX then 0 else 1)
        [[5, 7]] [[0], [1]]
      = some (computeLossFromLogits
          (fun _ t => if t = CROSS_ENTROPY_IGNORE_INDEX then 0 else 1)
          CROSS_ENTROPY_IGNORE_INDEX true [[5, 7]] [[0], [1]]) := by
  constructor
  · exact ((claim_C10_forward_loss_no_guard _ [[-100, -100]] [[0], [0]]
      (fun r => by simp)).1 (by decide)).1
  · exact (claim_C10_forward_loss_no_guard _ [[5, 7]] [[0], [1]]
      (fun r => by simp)).2 (by decide)

/-! ## Lemmas on the block-override topology -/

theorem overrideLayersLoop_ok_length (od : JDict) (expanded : List String)
    (ba al : JDict) :
    ∀ (bs : List Nat) (st : OverrideLoopState)
      (out : List JDict × OverrideLoopState),
      overrideLayersLoop od expanded ba al bs st = .ok out →
      out.1.length = bs.length := by
  intro bs
  induction bs with
  | nil =>
    intro st out h
    simp only [overrideLayersLoop] at h
    cases h
    rfl
  | cons b bs ih =>
    intro st out h
    simp only [overrideLayersLoop, bind, Except.bind] at h
    cases hls : layerStep od expanded ba al st b with
    | error e => rw [hls] at h; exact Except.noConfusion h
    | ok r =>
      rw [hls] at h
      dsimp only at h
      cases hloop : overrideLayersLoop od expanded ba al bs r.2 with
      | error e => rw [hloop] at h; exact Except.noConfusion h
      | ok r' =>
        rw [hloop] at h
        dsimp only at h
        cases h
        simp [ih r.2 r' hloop]

/-- C2: whenever `_get_override_block_args_list` succeeds, the per-layer
argument list has length exactly `n_layers`; and whenever the depth-first
expansion of the order tree (multiplied by the top-level repeat) has any
other length, construction fails with the length-mismatch error. -/
theorem claim_C2_expansion_length :
    (∀ (blockOverrides : Option BlockOverrides) (nLayers : Nat)
        (blockArgs allowed : JDict) (out : List JDict × OverrideLoopState),
      getOverrideBlockArgsList blockOverrides nLayers blockArgs allowed
          = .ok out →
      out.1.length = nLayers)
    ∧ (∀ (b : BlockOverrides) (nLayers : Nat) (blockArgs allowed : JDict)
        (e : List String),
      getModulesOrderExpanded b.order = .ok e →
      ((List.replicate (b.rep?.getD 1).toNat e).flatten).length ≠ nLayers →
      getOverrideBlockArgsList (some b) nLayers blockArgs allowed
        = .error "The specified block overrides do not match the number of layers") := by
  constructor
  · intro bo n ba al out h
    cases bo with
    | none => simp [getOverrideBlockArgsList, bind, Except.bind] at h
    | some b =>
      simp only [getOverrideBlockArgsList, bind, Except.bind] at h
      cases he : getModulesOrderExpanded b.order with
      | error e => rw [he] at h; exact Except.noConfusion h
      | ok e =>
        rw [he] at h
        dsimp only at h
        by_cases hlen :
            ((List.replicate (b.rep?.getD 1).toNat e).flatten).length = n
        · rw [if_neg (by simp [hlen])] at h
          have := overrideLayersLoop_ok_length b.overrides
            ((List.replicate (b.rep?.getD 1).toNat e).flatten) ba al
            (List.range n) .initial out h
          simpa using this
        · rw [if_pos hlen] at h
          exact Except.noConfusion h
  · intro b n ba al e he hne
    simp only [getOverrideBlockArgsList, bind, Except.bind, he]
    rw [if_pos hne]

theorem claim_C2_witness :
    ([[("a", JVal.int 1)], [("a", JVal.int 1)]] : List JDict).length = 2
    ∧ getOverrideBlockArgsList
        (some ⟨[.mk (some "default") none (some 2)], [], none⟩) 3
        [("a", JVal.int 1)] []
      = .error "The specified block overrides do not match the number of layers" := by
  constructor
  · exact claim_C2_expansion_length.1
      (some ⟨[.mk (some "default") none (some 2)], [], none⟩) 2
      [("a", JVal.int 1)] []
      ([[("a", JVal.int 1)], [("a", JVal.int 1)]], ⟨[], [], [], []⟩)
      (by simp [getOverrideBlockArgsList, getModulesOrderExpanded,
        overrideLayersLoop, layerStep, overrideBlockArgs, mergeCommon,
        pyUnion, pySet, pyGet, pyHasKey, OverrideLoopState.initial, bind,
        Except.bind])
  · exact claim_C2_expansion_length.2
      ⟨[.mk (some "default") none (some 2)], [], none⟩ 3
      [("a", JVal.int 1)] [] ["default", "default"]
      (by simp [getModulesOrderExpanded, bind, Except.bind]) (by decide)

/-! ## Lemmas on key/value-reuse resolution -/

theorem idGet_inv (d : IntDict) (k j : Int) (hinv : reuseDictInv d)
    (h : idGet d k = some j) : 0 ≤ j ∧ j < k := by
  unfold idGet at h
  cases hf : d.find? (fun p => p.1 == k) with
  | none => rw [hf] at h; cases h
  | some q =>
    rw [hf] at h
    cases h
    have hmem := List.mem_of_find?_eq_some hf
    have hpred := List.find?_some hf
    have hk : q.1 = k := by simpa using hpred
    have := hinv q hmem
    show 0 ≤ q.2 ∧ q.2 < k
    omega

theorem idSet_inv (d : IntDict) (k v : Int) (hinv : reuseDictInv d)
    (hv : 0 ≤ v) (hvk : v < k) : reuseDictInv (idSet d k v) := by
  intro p hp
  unfold idSet at hp
  by_cases hmem : (idGet d k).isSome
  · rw [if_pos hmem] at hp
    rcases List.mem_map.mp hp with ⟨q, hq, rfl⟩
    by_cases hqk : q.1 = k
    · simp only [if_pos hqk]
      exact ⟨hv, hvk⟩
    · simp only [if_neg hqk]
      exact hinv q hq
  · rw [if_neg hmem] at hp
    rcases List.mem_append.mp hp with hq | hq
    · exact hinv p hq
    · simp at hq
      rw [hq]
      exact ⟨hv, hvk⟩

theorem resolve_bounds (b : Nat) (v : Int) (hge : ¬v ≥ 0)
    (hlt : ¬((b : Int) + v < 0)) :
    0 ≤ (b : Int) + v ∧ (b : Int) + v < (b : Int) := by omega

theorem resolve_bounds_hit (b : Nat) (v j : Int) (hge : ¬v ≥ 0)
    (hlt : ¬((b : Int) + v < 0)) (hj : 0 ≤ j ∧ j < (b : Int) + v) :
    0 ≤ j ∧ j < (b : Int) := by omega

/-- A successful `_resolve_reuse_state_layer_idx` returns an index that is
non-negative and strictly below the referencing layer's index, and the
updated dict keeps the invariant. -/
theorem resolveReuse_ok_spec (od : JDict) (expanded : List String)
    (bIdx : Nat) (ovd : JDict) (dict : IntDict) (rt : String)
    (r : Int × IntDict) (hinv : reuseDictInv dict)
    (h : resolveReuseStateLayerIdx od expanded bIdx ovd dict rt = .ok r) :
    0 ≤ r.1 ∧ r.1 < (bIdx : Int) ∧ reuseDictInv r.2 := by
  unfold resolveReuseStateLayerIdx at h
  simp only [bind, Except.bind] at h
  repeat' (first | exact Except.noConfusion h | split at h)
  all_goals cases h
  all_goals try (have hj := idGet_inv dict _ _ hinv (by assumption))
  all_goals try (have hb2 := resolve_bounds_hit bIdx _ _ (by assumption) (by assumption) hj)
  all_goals try (have hb := resolve_bounds bIdx _ (by assumption) (by assumption))
  all_goals first
    | exact ⟨hb2.1, hb2.2, idSet_inv dict _ _ hinv hb2.1 hb2.2⟩
    | exact ⟨hb.1, hb.2, idSet_inv dict _ _ hinv hb.1 hb.2⟩

theorem resolveReuse_nonneg_offset_error (od : JDict)
    (expanded : List String) (bIdx : Nat) (ovd : JDict) (dict : IntDict)
    (rt : String) (v : Int) (attn : JDict)
    (h1 : pyGet ovd "attn_config" = some (.dict attn))
    (h2 : pyGet attn rt = some (.int v)) (hv : 0 ≤ v) :
    resolveReuseStateLayerIdx od expanded bIdx ovd dict rt
      = .error "The relative index of kv layer to reuse should be negative" := by
  unfold resolveReuseStateLayerIdx
  simp only [bind, Except.bind, h1, h2]
  rw [if_pos (show v ≥ 0 from hv)]

theorem resolveReuse_neg_abs_error (od : JDict)
    (expanded : List String) (bIdx : Nat) (ovd : JDict) (dict : IntDict)
    (rt : String) (v : Int) (attn : JDict)
    (h1 : pyGet ovd "attn_config" = some (.dict attn))
    (h2 : pyGet attn rt = some (.int v)) (hv : v < 0)
    (habs : (bIdx : Int) + v < 0) :
    resolveReuseStateLayerIdx od expanded bIdx ovd dict rt
      = .error "The absolute index of kv layer to reuse should be non-negative" := by
  unfold resolveReuseStateLayerIdx
  simp only [bind, Except.bind, h1, h2]
  rw [if_neg (show ¬(v ≥ 0) by omega), if_pos habs]

theorem layerStep_inv (od : JDict) (expanded : List String)
    (ba al : JDict) (st : OverrideLoopState) (bIdx : Nat)
    (r : JDict × OverrideLoopState)
    (hkv : reuseDictInv st.reuseKvDict)
    (hkvx : reuseDictInv st.reuseKvXDict)
    (h : layerStep od expanded ba al st bIdx = .ok r) :
    reuseDictInv r.2.reuseKvDict ∧ reuseDictInv r.2.reuseKvXDict := by
  unfold layerStep at h
  simp only [bind, Except.bind] at h
  repeat' (first | exact Except.noConfusion h | split at h)
  all_goals cases h
  all_goals subst_vars
  all_goals try (simp only [reduceIte] at *)
  all_goals try (rw [if_neg (by assumption)] at *)
  all_goals try (have hs := resolveReuse_ok_spec _ _ _ _ _ _ _ hkv (by assumption))
  all_goals try (have hs2 := resolveReuse_ok_spec _ _ _ _ _ _ _ hkvx (by assumption))
  all_goals first
    | exact ⟨hkv, hkvx⟩
    | exact ⟨hs.2.2, hkvx⟩
    | exact ⟨hkv, hs.2.2⟩
    | exact ⟨hs2.2.2, hkvx⟩
    | exact ⟨hkv, hs2.2.2⟩

theorem overrideLayersLoop_inv (od : JDict) (expanded : List String)
    (ba al : JDict) :
    ∀ (bs : List Nat) (st : OverrideLoopState)
      (out : List JDict × OverrideLoopState),
      reuseDictInv st.reuseKvDict → reuseDictInv st.reuseKvXDict →
      overrideLayersLoop od expanded ba al bs st = .ok out →
      reuseDictInv out.2.reuseKvDict ∧ reuseDictInv out.2.reuseKvXDict := by
  intro bs
  induction bs with
  | nil =>
    intro st out h1 h2 h
    simp only [overrideLayersLoop] at h
    cases h
    exact ⟨h1, h2⟩
  | cons b bs ih =>
    intro st out h1 h2 h
    simp only [overrideLayersLoop, bind, Except.bind] at h
    cases hls : layerStep od expanded ba al st b with
    | error e => rw [hls] at h; exact Except.noConfusion h
    | ok r =>
      rw [hls] at h
      dsimp only at h
      have hr := layerStep_inv od expanded ba al st b r h1 h2 hls
      cases hloop : overrideLayersLoop od expanded ba al bs r.2 with
      | error e => rw [hloop] at h; exact Except.noConfusion h
      | ok r' =>
        rw [hloop] at h
        dsimp only at h
        cases h
        exact ih r.2 r' hr.1 hr.2 hloop

/-- C3: for a layer whose override sets a key/value-reuse reference with
offset `v`, resolution fails when `v` is non-negative, and fails when the
absolute index `b_idx + v` is negative; a successful resolution (flattened
through chains of reuse layers via the reuse dict) yields an index that is
non-negative and strictly less than the referencing layer's index — an
invariant every dict produced by a successful
`_get_override_block_args_list` construction satisfies. -/
theorem claim_C3_reuse_backward_resolution :
    (∀ (od : JDict) (expanded : List String) (bIdx : Nat) (ovd : JDict)
        (dict : IntDict) (rt : String) (v : Int) (attn : JDict),
      pyGet ovd "attn_config" = some (.dict attn) →
      pyGet attn rt = some (.int v) →
      (0 ≤ v →
        resolveReuseStateLayerIdx od expanded bIdx ovd dict rt
          = .error "The relative index of kv layer to reuse should be negative")
      ∧ (v < 0 → (bIdx : Int) + v < 0 →
        resolveReuseStateLayerIdx od expanded bIdx ovd dict rt
          = .error "The absolute index of kv layer to reuse should be non-negative"))
    ∧ (∀ (od : JDict) (expanded : List String) (bIdx : Nat) (ovd : JDict)
        (dict : IntDict) (rt : String) (r : Int × IntDict),
      reuseDictInv dict →
      resolveReuseStateLayerIdx od expanded bIdx ovd dict rt = .ok r →
      0 ≤ r.1 ∧ r.1 < (bIdx : Int) ∧ reuseDictInv r.2)
    ∧ (∀ (blockOverrides : Option BlockOverrides) (nLayers : Nat)
        (blockArgs allowed : JDict) (out : List JDict × OverrideLoopState),
      getOverrideBlockArgsList blockOverrides nLayers blockArgs allowed
        = .ok out →
      reuseDictInv out.2.reuseKvDict ∧ reuseDictInv out.2.reuseKvXDict) := by
  refine ⟨?_, ?_, ?_⟩
  · intro od expanded bIdx ovd dict rt v attn h1 h2
    exact ⟨fun hv => resolveReuse_nonneg_offset_error od expanded bIdx ovd
        dict rt v attn h1 h2 hv,
      fun hv habs => resolveReuse_neg_abs_error od expanded bIdx ovd dict rt
        v attn h1 h2 hv habs⟩
  · intro od expanded bIdx ovd dict rt r hinv h
    exact resolveReuse_ok_spec od expanded bIdx ovd dict rt r hinv h
  · intro bo n ba al out h
    cases bo with
    | none => simp [getOverrideBlockArgsList, bind, Except.bind] at h
    | some b =>
      simp only [getOverrideBlockArgsList, bind, Except.bind] at h
      cases he : getModulesOrderExpanded b.order with
      | error e => rw [he] at h; exact Except.noConfusion h
      | ok e =>
        rw [he] at h
        dsimp only at h
        by_cases hlen :
            ((List.replicate (b.rep?.getD 1).toNat e).flatten).length = n
        · rw [if_neg (by simp [hlen])] at h
          exact overrideLayersLoop_inv b.overrides _ ba al (List.range n)
            .initial out (fun p hp => absurd hp (List.not_mem_nil p))
            (fun p hp => absurd hp (List.not_mem_nil p)) h
        · rw [if_pos hlen] at h
          exact Except.noConfusion h

theorem claim_C3_witness :
    (resolveReuseStateLayerIdx [] ["default", "r"] 1
        [("attn_config", JVal.dict [("reuse_kv_layer_idx", JVal.int 1)])] []
        "reuse_kv_layer_idx"
      = .error "The relative index of kv layer to reuse should be negative")
    ∧ (resolveReuseStateLayerIdx [] ["default", "r"] 0
        [("attn_config", JVal.dict [("reuse_kv_layer_idx", JVal.int (-1))])]
        [] "reuse_kv_layer_idx"
      = .error "The absolute index of kv layer to reuse should be non-negative")
    ∧ (0 ≤ (0 : Int) ∧ (0 : Int) < ((1 : Nat) : Int)
        ∧ reuseDictInv [((1 : Int), (0 : Int))]) := by
  refine ⟨?_, ?_, ?_⟩
  · exact (claim_C3_reuse_backward_resolution.1 [] ["default", "r"] 1
      [("attn_config", JVal.dict [("reuse_kv_layer_idx", JVal.int 1)])] []
      "reuse_kv_layer_idx" 1
      [("reuse_kv_layer_idx", JVal.int 1)] rfl rfl).1 (by norm_num)
  · exact (claim_C3_reuse_backward_resolution.1 [] ["default", "r"] 0
      [("attn_config", JVal.dict [("reuse_kv_layer_idx", JVal.int (-1))])] []
      "reuse_kv_layer_idx" (-1)
      [("reuse_kv_layer_idx", JVal.int (-1))] rfl rfl).2 (by norm_num)
      (by norm_num)
  · exact claim_C3_reuse_backward_resolution.2.1 [] ["default", "r"] 1
      [("attn_config", JVal.dict [("reuse_kv_layer_idx", JVal.int (-1))])] []
      "reuse_kv_layer_idx" ((0 : Int), ([((1 : Int), (0 : Int))] : IntDict))
      (fun p hp => absurd hp (List.not_mem_nil p)) (by rfl)

end LLMFoundry
